import Mathlib

/-!
Verification development for the mosca MQTT broker (`lib/server.js`).

The source is a single-file, single-threaded, event-driven broker.  We give
a shallow embedding as an executable transition system:

* `Session` models the per-connection client object (`client.id`,
  `client.keepalive`, `client.timer`, the stream, the attached listeners).
* `ServerState` models the broker (`this.clients` registry as an
  association list in insertion order, the set of live `setTimeout`
  handles, the event-loop clock in milliseconds, the listening socket,
  and a log of observable outputs: codec replies, Topic Bus calls,
  emitted lifecycle events, and `process.nextTick` schedulings).
* `stepEv` is the per-connection packet dispatcher of
  `Server.prototype.serve` plus timer firing and time passing.
* `closeConn` is `Server.prototype.closeConn`; `closeFn` is
  `Server.prototype.close` (tasks over `Object.keys(this.clients)` run in
  order, each looking its key up in the current registry at run time, as
  the closures in the source do; invoking a missing value or an absent
  callback raises a JavaScript `TypeError`).

JavaScript truthiness of `client.id` matters in `closeConn`
(`if (client.id)`): the id is modelled as `Option String`, and `none` as
well as `some ""` are falsy.
-/

namespace Mosca

/-- One entry of a subscribe packet: `{topic, qos}` (source: `packet.subscriptions`). -/
structure Subscription where
  topic : String
  qos : Nat
deriving DecidableEq

/-- Observable outputs of the broker: codec replies sent to a connection
(identified by its connection index), Topic Bus calls, emitted
`EventEmitter` notifications, and `process.nextTick` callback schedulings. -/
inductive Out where
  | connack (i rc : Nat)
  | pingresp (i : Nat)
  | busSub (i : Nat) (topic : String)
  | suback (i msgId : Nat) (granted : List Nat)
  | busPub (topic payload : String)
  | published (topic payload : String) (i : Nat)
  | busUnsub (i : Nat) (topic : String)
  | unsuback (i msgId : Nat)
  | clientConnected (i : Nat)
  | clientDisconnected (i : Nat)
  | cbScheduled (i : Nat)
deriving DecidableEq

/-- The per-connection client object.  `id` and `keepalive` are `none`
until a connect packet assigns them (`undefined` in the source); `timer`
holds the handle returned by the last `setTimeout` for this client, if
any. -/
structure Session where
  id : Option String
  keepalive : Option Nat
  timer : Option Nat
  streamEnded : Bool
  listenersAttached : Bool
deriving DecidableEq

/-- A freshly accepted connection: nothing assigned yet, listeners
installed by `serve`. -/
def Session.fresh : Session :=
  { id := none, keepalive := none, timer := none,
    streamEnded := false, listenersAttached := true }

/-- A live `setTimeout` registration: its handle, the connection index of
the client captured by its callback, and the absolute time (ms) at which
it becomes due. -/
structure Timer where
  handle : Nat
  owner : Nat
  deadline : Nat
deriving DecidableEq

/-- The broker state.  `sessions` is indexed by connection arrival order
(a JavaScript object reference is a connection index here); `clients` is
the `this.clients` registry in insertion order; `timers` are the pending
timeouts; `now` is the event-loop clock in milliseconds. -/
@[ext]
structure ServerState where
  sessions : List Session
  clients : List (String × Nat)
  timers : List Timer
  nextHandle : Nat
  now : Nat
  listenerRunning : Bool
  log : List Out
deriving DecidableEq

/-- Reading a session by connection index (a dangling index reads as a
fresh default, which no reachable step produces). -/
def sessionAt (st : ServerState) (i : Nat) : Session :=
  st.sessions.getD i Session.fresh

/-- JavaScript truthiness of `client.id`: `undefined` and the empty
string are falsy. -/
def truthyId : Option String → Bool
  | none => false
  | some s => decide (s ≠ "")

/-- Property assignment `this.clients[k] = v` on a JavaScript object:
replace the binding in place if the key exists, else append it. -/
def setKey (m : List (String × Nat)) (k : String) (v : Nat) : List (String × Nat) :=
  match m with
  | [] => [(k, v)]
  | (k', v') :: rest => if k' = k then (k, v) :: rest else (k', v') :: setKey rest k v

/-- Property deletion `delete this.clients[k]`. -/
def eraseKey (m : List (String × Nat)) (k : String) : List (String × Nat) :=
  m.filter (fun p => p.1 ≠ k)

/-- Property read `this.clients[k]`: `none` is JavaScript `undefined`. -/
def lookupKey (m : List (String × Nat)) (k : String) : Option Nat :=
  match m with
  | [] => none
  | (k', v) :: rest => if k' = k then some v else lookupKey rest k

/-- The `setTimeout` delay `client.keepalive * 1000 * 5/4` in ms; an
unassigned (`undefined`) keepalive yields a degenerate immediate timeout. -/
def delayMs : Option Nat → Nat
  | none => 0
  | some k => k * 1250

/-- The effect of `clearTimeout(client.timer)` on the pending-timer set:
remove the timer with that handle if it is still pending, else no-op
(also a no-op when `client.timer` is `undefined`). -/
def clearTimer (timers : List Timer) : Option Nat → List Timer
  | none => timers
  | some h => timers.filter (fun t => t.handle ≠ h)

/-- The `setUpTimer` closure of `serve`: clear the previous timeout if
any, then schedule a fresh one for `keepalive * 1000 * 5/4` ms whose
callback tears the client down, storing the new handle in `client.timer`. -/
def setUpTimer (st : ServerState) (i : Nat) : ServerState :=
  let s := sessionAt st i
  { st with
    timers := ⟨st.nextHandle, i, st.now + delayMs s.keepalive⟩ :: clearTimer st.timers s.timer,
    sessions := st.sessions.set i { s with timer := some st.nextHandle },
    nextHandle := st.nextHandle + 1 }

/-- `Server.prototype.closeConn(client, callback)`: if `client.id` is
truthy, `clearTimeout(client.timer)` and `delete this.clients[client.id]`;
then `client.stream.end()`, `client.removeAllListeners()`,
`next(callback)` (a `process.nextTick` scheduling, only when a callback
was given), and finally `this.emit("clientDisconnected", client)`. -/
def closeConn (st : ServerState) (i : Nat) (cb : Bool) : ServerState :=
  let s := sessionAt st i
  { sessions := st.sessions.set i { s with streamEnded := true, listenersAttached := false },
    clients := if truthyId s.id then eraseKey st.clients (s.id.getD "") else st.clients,
    timers := if truthyId s.id then clearTimer st.timers s.timer else st.timers,
    nextHandle := st.nextHandle,
    now := st.now,
    listenerRunning := st.listenerRunning,
    log := st.log ++ (if cb then [Out.cbScheduled i] else []) ++ [Out.clientDisconnected i] }

/-- The granted-QoS list computed by the subscribe handler:
`packet.subscriptions.map(function(e) { return 0; })`. -/
def grantedOf (subs : List Subscription) : List Nat :=
  subs.map (fun _ => 0)

/-- An occurrence the event loop can process: a packet event delivered to
the handlers installed by `serve` on connection `i`, a new accepted
connection, a due timer firing, or time passing. -/
inductive Event where
  | accept
  | connect (i : Nat) (cid : String) (keepalive : Nat)
  | pingreq (i : Nat)
  | subscribe (i msgId : Nat) (subs : List Subscription)
  | publishP (i : Nat) (topic payload : String)
  | unsubscribe (i msgId : Nat) (topics : List String)
  | disconnect (i : Nat)
  | errorEv (i : Nat)
  | timerFire (h : Nat)
  | tick (d : Nat)

/-- A packet event reaches the handlers only while they are attached
(before `removeAllListeners`); the index must denote an accepted
connection. -/
def active (st : ServerState) (i : Nat) : Bool :=
  decide (i < st.sessions.length) && (sessionAt st i).listenersAttached

/-- The transition function: the packet handlers installed by
`Server.prototype.serve` (connect, pingreq, subscribe, publish,
unsubscribe, disconnect, error), plus connection acceptance, timer
expiry, and clock advance.  A timer may fire only at or after its
deadline; firing removes it from the pending set and runs its callback
`that.closeConn(client)`. -/
def stepEv (e : Event) (st : ServerState) : ServerState :=
  match e with
  | .accept => { st with sessions := st.sessions ++ [Session.fresh] }
  | .connect i cid k =>
    if active st i then
      let s := sessionAt st i
      let st1 := { st with
        sessions := st.sessions.set i { s with id := some cid, keepalive := some k },
        clients := setKey st.clients cid i }
      let st2 := setUpTimer st1 i
      { st2 with log := st2.log ++ [Out.connack i 0, Out.clientConnected i] }
    else st
  | .pingreq i =>
    if active st i then
      let st1 := setUpTimer st i
      { st1 with log := st1.log ++ [Out.pingresp i] }
    else st
  | .subscribe i m subs =>
    if active st i then
      { st with log := st.log ++ subs.map (fun s => Out.busSub i s.topic)
                       ++ [Out.suback i m (grantedOf subs)] }
    else st
  | .publishP i topic payload =>
    if active st i then
      { st with log := st.log ++ [Out.busPub topic payload, Out.published topic payload i] }
    else st
  | .unsubscribe i m topics =>
    if active st i then
      { st with log := st.log ++ topics.map (fun t => Out.busUnsub i t) ++ [Out.unsuback i m] }
    else st
  | .disconnect i => if active st i then closeConn st i false else st
  | .errorEv i => if active st i then closeConn st i false else st
  | .timerFire h =>
    match st.timers.find? (fun t => t.handle = h) with
    | some t =>
      if t.deadline ≤ st.now then
        closeConn { st with timers := st.timers.filter (fun u => u.handle ≠ h) } t.owner false
      else st
    | none => st
  | .tick d => { st with now := st.now + d }

/-- The broker right after `listen` succeeded: no connections, empty
registry, listener running. -/
def initState : ServerState :=
  { sessions := [], clients := [], timers := [], nextHandle := 0, now := 0,
    listenerRunning := true, log := [] }

/-- Run a list of events in order. -/
def runEvents (es : List Event) (st : ServerState) : ServerState :=
  es.foldl (fun s e => stepEv e s) st

/-- States the broker can actually be in. -/
inductive Reachable : ServerState → Prop where
  | init : Reachable initState
  | step (e : Event) {st : ServerState} (h : Reachable st) : Reachable (stepEv e st)

/-- The connect transition restricted to its session-identity part:
assign the id and insert the connection into the registry.  Used to
compare how a handler treats a pending session versus the corresponding
connected one. -/
def promote (st : ServerState) (i : Nat) (cid : String) : ServerState :=
  { st with sessions := st.sessions.set i { sessionAt st i with id := some cid },
            clients := setKey st.clients cid i }

/-- Temporal skeleton of one `close()` call: the per-registered-session
teardowns in `Object.keys` order, the `server.close` attempt, and the
invocation of the `close` callback. -/
inductive CAct where
  | teardown (k : String)
  | stopAttempt
  | onDoneInvoked
deriving DecidableEq

/-- A JavaScript runtime exception escaping the modelled code. -/
inductive JsErr where
  | typeError
deriving DecidableEq

/-- The task list built by `close`: one task per key of `Object.keys
(this.clients)` (captured before any teardown), each evaluating
`this.clients[id]` when it runs and passing the result to `closeConn`.
Reading `.id` of `undefined` raises a `TypeError`. -/
def closeTasks (ks : List String) (st : ServerState) (acc : List CAct) :
    Except JsErr (ServerState × List CAct) :=
  match ks with
  | [] => .ok (st, acc)
  | k :: rest =>
    match lookupKey st.clients k with
    | none => .error .typeError
    | some i => closeTasks rest (closeConn st i true) (acc ++ [CAct.teardown k])

/-- The tail of `close` after all teardown tasks completed:
`try { this.server.close(callback) } catch (e) { callback() }`.  Stopping a
running listener invokes the callback when given; stopping an already
stopped listener throws, and the catch branch calls `callback()` — a
`TypeError` when no callback was passed. -/
def closeFinish (st1 : ServerState) (acts : List CAct) (cbGiven : Bool) :
    Except JsErr (ServerState × List CAct) :=
  if st1.listenerRunning then
    .ok ({ st1 with listenerRunning := false },
         acts ++ [CAct.stopAttempt] ++ (if cbGiven then [CAct.onDoneInvoked] else []))
  else
    if cbGiven then .ok (st1, acts ++ [CAct.stopAttempt, CAct.onDoneInvoked])
    else .error .typeError

/-- `Server.prototype.close(callback)`: run all teardown tasks over the
captured registry keys, then attempt to stop the listener (`closeFinish`). -/
def closeFn (st : ServerState) (cbGiven : Bool) : Except JsErr (ServerState × List CAct) :=
  match closeTasks (st.clients.map Prod.fst) st [] with
  | .error e => .error e
  | .ok (st1, acts) => closeFinish st1 acts cbGiven

/-! Basic list and registry lemmas. -/

theorem getD_set_self {α : Type*} (l : List α) (i : Nat) (a d : α) (h : i < l.length) :
    (l.set i a).getD i d = a := by
  simp [List.getD_eq_getElem?_getD, List.getElem?_set_self h]

theorem getD_set_ne {α : Type*} (l : List α) {i j : Nat} (a d : α) (h : i ≠ j) :
    (l.set i a).getD j d = l.getD j d := by
  simp [List.getD_eq_getElem?_getD, List.getElem?_set_ne h]

theorem getD_of_le {α : Type*} (l : List α) {i : Nat} (d : α) (h : l.length ≤ i) :
    l.getD i d = d := by
  simp [List.getD_eq_getElem?_getD, List.getElem?_eq_none h]

theorem getD_append_default {α : Type*} (l : List α) (i : Nat) (d : α) :
    (l ++ [d]).getD i d = l.getD i d := by
  by_cases h : i < l.length
  · simp [List.getD_eq_getElem?_getD, List.getElem?_append_left h]
  · push_neg at h
    rw [List.getD_eq_getElem?_getD, List.getD_eq_getElem?_getD,
        List.getElem?_append_right h, List.getElem?_eq_none h]
    cases hk : i - l.length with
    | zero => simp
    | succ n => simp

theorem lookupKey_setKey_self (m : List (String × Nat)) (k : String) (v : Nat) :
    lookupKey (setKey m k v) k = some v := by
  induction m with
  | nil => simp [setKey, lookupKey]
  | cons p rest ih =>
    obtain ⟨k', v'⟩ := p
    by_cases h : k' = k
    · simp [setKey, lookupKey, h]
    · simp [setKey, lookupKey, h, ih]

theorem lookupKey_setKey_ne (m : List (String × Nat)) {k k' : String} (v : Nat)
    (h : k' ≠ k) : lookupKey (setKey m k v) k' = lookupKey m k' := by
  induction m with
  | nil => simp [setKey, lookupKey, Ne.symm h]
  | cons p rest ih =>
    obtain ⟨k₀, v₀⟩ := p
    by_cases hk : k₀ = k
    · subst hk
      simp [setKey, lookupKey, Ne.symm h]
    · by_cases hk' : k₀ = k'
      · simp [setKey, lookupKey, hk, hk', h]
      · simp [setKey, lookupKey, hk, hk', ih]

theorem lookupKey_eraseKey_ne (m : List (String × Nat)) {k k' : String}
    (h : k' ≠ k) : lookupKey (eraseKey m k) k' = lookupKey m k' := by
  induction m with
  | nil => rfl
  | cons p rest ih =>
    obtain ⟨k₀, v₀⟩ := p
    by_cases hk : k₀ = k
    · subst hk
      simpa [eraseKey, lookupKey, List.filter_cons, Ne.symm h] using ih
    · by_cases hk' : k₀ = k'
      · simp [eraseKey, lookupKey, List.filter_cons, hk, hk', h]
      · simpa [eraseKey, lookupKey, List.filter_cons, hk, hk'] using ih

theorem lookupKey_mem {m : List (String × Nat)} {k : String} {v : Nat}
    (h : lookupKey m k = some v) : (k, v) ∈ m := by
  induction m with
  | nil => simp [lookupKey] at h
  | cons p rest ih =>
    obtain ⟨k₀, v₀⟩ := p
    by_cases hk : k₀ = k
    · subst hk
      simp [lookupKey] at h
      simp [h]
    · simp [lookupKey, hk] at h
      exact List.mem_cons_of_mem _ (ih h)

theorem lookupKey_isSome_of_mem {m : List (String × Nat)} {k : String} {v : Nat}
    (h : (k, v) ∈ m) : ∃ v', lookupKey m k = some v' := by
  induction m with
  | nil => simp at h
  | cons p rest ih =>
    obtain ⟨k₀, v₀⟩ := p
    by_cases hk : k₀ = k
    · exact ⟨v₀, by simp [lookupKey, hk]⟩
    · rcases List.mem_cons.mp h with h' | h'
      · exact absurd (congrArg Prod.fst h').symm hk
      · simpa [lookupKey, hk] using ih h'

theorem notMem_keys_setKey {m : List (String × Nat)} {k₀ k : String} (v : Nat)
    (h₀ : k₀ ∉ m.map Prod.fst) (hne : k₀ ≠ k) :
    k₀ ∉ (setKey m k v).map Prod.fst := by
  induction m with
  | nil =>
    simp [setKey]
    exact hne
  | cons p rest ih =>
    obtain ⟨k', v'⟩ := p
    rw [List.map_cons, List.mem_cons] at h₀
    push_neg at h₀
    by_cases hk : k' = k
    · subst hk
      have hset : setKey ((k', v') :: rest) k' v = (k', v) :: rest := by
        simp [setKey]
      rw [hset, List.map_cons, List.mem_cons]
      push_neg
      exact ⟨hne, h₀.2⟩
    · have hset : setKey ((k', v') :: rest) k v = (k', v') :: setKey rest k v := by
        simp [setKey, hk]
      rw [hset, List.map_cons, List.mem_cons]
      push_neg
      exact ⟨h₀.1, ih h₀.2⟩

theorem keys_nodup_setKey {m : List (String × Nat)} {k : String} {v : Nat}
    (h : (m.map Prod.fst).Nodup) : ((setKey m k v).map Prod.fst).Nodup := by
  induction m with
  | nil => simp [setKey]
  | cons p rest ih =>
    obtain ⟨k', v'⟩ := p
    rw [List.map_cons, List.nodup_cons] at h
    by_cases hk : k' = k
    · subst hk
      have hset : setKey ((k', v') :: rest) k' v = (k', v) :: rest := by
        simp [setKey]
      rw [hset, List.map_cons, List.nodup_cons]
      exact ⟨h.1, h.2⟩
    · have hset : setKey ((k', v') :: rest) k v = (k', v') :: setKey rest k v := by
        simp [setKey, hk]
      rw [hset, List.map_cons, List.nodup_cons]
      exact ⟨notMem_keys_setKey v h.1 hk, ih h.2⟩

theorem keys_nodup_eraseKey {m : List (String × Nat)} (k : String)
    (h : (m.map Prod.fst).Nodup) : ((eraseKey m k).map Prod.fst).Nodup :=
  (((List.filter_sublist m).map Prod.fst).nodup h)

theorem mem_of_mem_eraseKey {m : List (String × Nat)} {k : String} {p : String × Nat}
    (h : p ∈ eraseKey m k) : p ∈ m :=
  (List.mem_filter.mp h).1

theorem clearTimer_sublist (timers : List Timer) (o : Option Nat) :
    (clearTimer timers o).Sublist timers := by
  cases o with
  | none => exact List.Sublist.refl _
  | some h => exact List.filter_sublist _

/-! The timer bookkeeping invariant: pending handles are below the
allocation counter and pairwise distinct, every pending timer is the one
recorded in its owner's `client.timer` slot, recorded handles are below
the counter, and no two sessions record the same handle. -/

def timerInv (st : ServerState) : Prop :=
  (∀ t ∈ st.timers, t.handle < st.nextHandle) ∧
  ((st.timers.map Timer.handle).Nodup) ∧
  (∀ t ∈ st.timers, (sessionAt st t.owner).timer = some t.handle) ∧
  (∀ i h, (sessionAt st i).timer = some h → h < st.nextHandle) ∧
  (∀ i j h, (sessionAt st i).timer = some h → (sessionAt st j).timer = some h → i = j)

/-- The registry key-uniqueness invariant. -/
def keysNodup (st : ServerState) : Prop :=
  (st.clients.map Prod.fst).Nodup

theorem timerInv_transfer {st st' : ServerState} (hinv : timerInv st)
    (hnh : st'.nextHandle = st.nextHandle)
    (hsub : st'.timers.Sublist st.timers)
    (hfld : ∀ i, (sessionAt st' i).timer = (sessionAt st i).timer) :
    timerInv st' := by
  obtain ⟨h1, h2, h3, h4, h5⟩ := hinv
  refine ⟨?_, ?_, ?_, ?_, ?_⟩
  · intro t ht
    rw [hnh]
    exact h1 t (hsub.mem ht)
  · exact (hsub.map Timer.handle).nodup h2
  · intro t ht
    rw [hfld]
    exact h3 t (hsub.mem ht)
  · intro i h hh
    rw [hnh]
    exact h4 i h (by rw [← hfld]; exact hh)
  · intro i j h hi hj
    exact h5 i j h (by rw [← hfld]; exact hi) (by rw [← hfld]; exact hj)

theorem setUpTimer_sessions (st : ServerState) (i : Nat) :
    (setUpTimer st i).sessions
      = st.sessions.set i { sessionAt st i with timer := some st.nextHandle } := rfl

theorem sessionAt_setUpTimer_self {st : ServerState} {i : Nat}
    (hlen : i < st.sessions.length) :
    sessionAt (setUpTimer st i) i = { sessionAt st i with timer := some st.nextHandle } := by
  rw [sessionAt, setUpTimer_sessions]
  exact getD_set_self _ _ _ _ hlen

theorem sessionAt_setUpTimer_ne {st : ServerState} {i j : Nat} (h : i ≠ j) :
    sessionAt (setUpTimer st i) j = sessionAt st j := by
  rw [sessionAt, setUpTimer_sessions, getD_set_ne _ _ _ h]
  rfl

theorem timerInv_setUpTimer {st : ServerState} {i : Nat}
    (hlen : i < st.sessions.length) (hinv : timerInv st) : timerInv (setUpTimer st i) := by
  obtain ⟨h1, h2, h3, h4, h5⟩ := hinv
  have hmem : ∀ t ∈ clearTimer st.timers (sessionAt st i).timer, t ∈ st.timers :=
    fun t ht => (clearTimer_sublist _ _).mem ht
  have hfld : ∀ j, (sessionAt (setUpTimer st i) j).timer =
      if j = i then some st.nextHandle else (sessionAt st j).timer := by
    intro j
    by_cases hj : j = i
    · subst hj
      simp [sessionAt_setUpTimer_self hlen]
    · simp [hj, sessionAt_setUpTimer_ne (Ne.symm hj)]
  refine ⟨?_, ?_, ?_, ?_, ?_⟩
  · intro t ht
    simp only [setUpTimer] at ht
    rcases List.mem_cons.mp ht with rfl | ht
    · simp [setUpTimer]
    · simp only [setUpTimer]
      exact Nat.lt_succ_of_lt (h1 t (hmem t ht))
  · simp only [setUpTimer, List.map_cons]
    refine List.Nodup.cons ?_ (((clearTimer_sublist _ _).map Timer.handle).nodup h2)
    intro hmm
    rcases List.mem_map.mp hmm with ⟨t, ht, hth⟩
    exact Nat.lt_irrefl _ (hth ▸ h1 t (hmem t ht))
  · intro t ht
    simp only [setUpTimer] at ht
    rcases List.mem_cons.mp ht with rfl | ht
    · simp [hfld]
    · rw [hfld]
      by_cases ho : t.owner = i
      · exfalso
        have hti := h3 t (hmem t ht)
        rw [ho] at hti
        rw [hti] at ht
        simp [clearTimer, List.mem_filter] at ht
      · simp only [ho, if_false]
        exact h3 t (hmem t ht)
  · intro j h hh
    rw [hfld] at hh
    by_cases hj : j = i
    · simp [hj] at hh
      simp [setUpTimer, ← hh]
    · simp [hj] at hh
      simp only [setUpTimer]
      exact Nat.lt_succ_of_lt (h4 j h hh)
  · intro j j' h hj hj'
    rw [hfld] at hj hj'
    by_cases hji : j = i <;> by_cases hj'i : j' = i
    · rw [hji, hj'i]
    · exfalso
      simp [hji] at hj
      simp [hj'i] at hj'
      rw [← hj] at hj'
      exact Nat.lt_irrefl _ (h4 j' st.nextHandle hj')
    · exfalso
      simp [hj'i] at hj'
      simp [hji] at hj
      rw [← hj'] at hj
      exact Nat.lt_irrefl _ (h4 j st.nextHandle hj)
    · simp [hji] at hj
      simp [hj'i] at hj'
      exact h5 j j' h hj hj'

theorem getD_set {α : Type*} (l : List α) (i j : Nat) (a d : α) :
    (l.set i a).getD j d = if i = j ∧ i < l.length then a else l.getD j d := by
  by_cases hij : i = j
  · subst hij
    by_cases hlen : i < l.length
    · simp only [hlen, and_true, if_pos trivial, true_and, if_true]
      exact getD_set_self _ _ _ _ hlen
    · simp only [hlen, and_false, if_false]
      rw [List.set_eq_of_length_le (Nat.le_of_not_lt hlen)]
  · simp only [hij, false_and, if_false]
    exact getD_set_ne _ _ _ hij

theorem closeConn_nextHandle (st : ServerState) (i : Nat) (cb : Bool) :
    (closeConn st i cb).nextHandle = st.nextHandle := rfl

theorem closeConn_now (st : ServerState) (i : Nat) (cb : Bool) :
    (closeConn st i cb).now = st.now := rfl

theorem closeConn_listenerRunning (st : ServerState) (i : Nat) (cb : Bool) :
    (closeConn st i cb).listenerRunning = st.listenerRunning := rfl

theorem closeConn_timers (st : ServerState) (i : Nat) (cb : Bool) :
    (closeConn st i cb).timers =
      if truthyId (sessionAt st i).id then clearTimer st.timers (sessionAt st i).timer
      else st.timers := rfl

theorem closeConn_clients (st : ServerState) (i : Nat) (cb : Bool) :
    (closeConn st i cb).clients =
      if truthyId (sessionAt st i).id then eraseKey st.clients ((sessionAt st i).id.getD "")
      else st.clients := rfl

theorem closeConn_sessions (st : ServerState) (i : Nat) (cb : Bool) :
    (closeConn st i cb).sessions =
      st.sessions.set i
        { sessionAt st i with streamEnded := true, listenersAttached := false } := rfl

theorem closeConn_log (st : ServerState) (i : Nat) (cb : Bool) :
    (closeConn st i cb).log =
      st.log ++ (if cb then [Out.cbScheduled i] else []) ++ [Out.clientDisconnected i] := rfl

theorem sessionAt_closeConn (st : ServerState) (i : Nat) (cb : Bool) (j : Nat) :
    sessionAt (closeConn st i cb) j =
      if i = j ∧ i < st.sessions.length then
        { sessionAt st i with streamEnded := true, listenersAttached := false }
      else sessionAt st j := by
  rw [sessionAt, closeConn_sessions, getD_set]
  rfl

theorem timerInv_closeConn {st : ServerState} {i : Nat} {cb : Bool}
    (hinv : timerInv st) : timerInv (closeConn st i cb) := by
  refine timerInv_transfer hinv (closeConn_nextHandle st i cb) ?_ ?_
  · rw [closeConn_timers]
    split
    · exact clearTimer_sublist _ _
    · exact List.Sublist.refl _
  · intro j
    rw [sessionAt_closeConn]
    split
    · rename_i hc
      rw [← hc.1]
    · rfl

theorem keysNodup_closeConn {st : ServerState} {i : Nat} {cb : Bool}
    (h : keysNodup st) : keysNodup (closeConn st i cb) := by
  unfold keysNodup at h ⊢
  rw [closeConn_clients]
  split
  · exact keys_nodup_eraseKey _ h
  · exact h

theorem active_length {st : ServerState} {i : Nat} (hact : active st i = true) :
    i < st.sessions.length := by
  have h' := hact
  simp only [active, Bool.and_eq_true, decide_eq_true_eq] at h'
  exact h'.1

theorem active_attached {st : ServerState} {i : Nat} (hact : active st i = true) :
    (sessionAt st i).listenersAttached = true := by
  have h' := hact
  simp only [active, Bool.and_eq_true, decide_eq_true_eq] at h'
  exact h'.2

theorem timerInv_step (e : Event) {st : ServerState} (h : timerInv st) :
    timerInv (stepEv e st) := by
  cases e with
  | accept =>
    refine timerInv_transfer h rfl (List.Sublist.refl _) ?_
    intro j
    show (((st.sessions ++ [Session.fresh]).getD j Session.fresh)).timer
        = ((st.sessions.getD j Session.fresh)).timer
    rw [getD_append_default]
  | connect i cid k =>
    simp only [stepEv]
    by_cases hact : active st i
    · rw [if_pos hact]
      have hlen : i < st.sessions.length := active_length hact
      have h1 : timerInv { st with
          sessions := st.sessions.set i
            { sessionAt st i with id := some cid, keepalive := some k },
          clients := setKey st.clients cid i } := by
        refine timerInv_transfer h rfl (List.Sublist.refl _) ?_
        intro j
        show ((st.sessions.set i
            { sessionAt st i with id := some cid, keepalive := some k }).getD
              j Session.fresh).timer
          = ((st.sessions.getD j Session.fresh)).timer
        rw [getD_set]
        split
        · rename_i hc
          rw [← hc.1]
          rfl
        · rfl
      have h2 := timerInv_setUpTimer (by simpa using hlen) h1
      exact timerInv_transfer h2 rfl (List.Sublist.refl _) (fun _ => rfl)
    · rw [if_neg hact]
      exact h
  | pingreq i =>
    simp only [stepEv]
    by_cases hact : active st i
    · rw [if_pos hact]
      have h2 := timerInv_setUpTimer (active_length hact) h
      exact timerInv_transfer h2 rfl (List.Sublist.refl _) (fun _ => rfl)
    · rw [if_neg hact]
      exact h
  | subscribe i m subs =>
    simp only [stepEv]
    by_cases hact : active st i
    · rw [if_pos hact]
      exact timerInv_transfer h rfl (List.Sublist.refl _) (fun _ => rfl)
    · rw [if_neg hact]
      exact h
  | publishP i topic payload =>
    simp only [stepEv]
    by_cases hact : active st i
    · rw [if_pos hact]
      exact timerInv_transfer h rfl (List.Sublist.refl _) (fun _ => rfl)
    · rw [if_neg hact]
      exact h
  | unsubscribe i m topics =>
    simp only [stepEv]
    by_cases hact : active st i
    · rw [if_pos hact]
      exact timerInv_transfer h rfl (List.Sublist.refl _) (fun _ => rfl)
    · rw [if_neg hact]
      exact h
  | disconnect i =>
    simp only [stepEv]
    by_cases hact : active st i
    · rw [if_pos hact]
      exact timerInv_closeConn h
    · rw [if_neg hact]
      exact h
  | errorEv i =>
    simp only [stepEv]
    by_cases hact : active st i
    · rw [if_pos hact]
      exact timerInv_closeConn h
    · rw [if_neg hact]
      exact h
  | timerFire hd =>
    simp only [stepEv]
    cases hf : st.timers.find? (fun t => t.handle = hd) with
    | none => simp only [hf]; exact h
    | some t =>
      simp only [hf]
      by_cases hdl : t.deadline ≤ st.now
      · rw [if_pos hdl]
        exact timerInv_closeConn
          (timerInv_transfer h rfl (List.filter_sublist _) (fun _ => rfl))
      · rw [if_neg hdl]
        exact h
  | tick d =>
    exact timerInv_transfer h rfl (List.Sublist.refl _) (fun _ => rfl)

theorem keysNodup_step (e : Event) {st : ServerState} (h : keysNodup st) :
    keysNodup (stepEv e st) := by
  cases e with
  | accept => exact h
  | connect i cid k =>
    simp only [stepEv]
    by_cases hact : active st i
    · rw [if_pos hact]
      show ((setKey st.clients cid i).map Prod.fst).Nodup
      exact keys_nodup_setKey h
    · rw [if_neg hact]
      exact h
  | pingreq i =>
    simp only [stepEv]
    by_cases hact : active st i
    · rw [if_pos hact]; exact h
    · rw [if_neg hact]; exact h
  | subscribe i m subs =>
    simp only [stepEv]
    by_cases hact : active st i
    · rw [if_pos hact]; exact h
    · rw [if_neg hact]; exact h
  | publishP i topic payload =>
    simp only [stepEv]
    by_cases hact : active st i
    · rw [if_pos hact]; exact h
    · rw [if_neg hact]; exact h
  | unsubscribe i m topics =>
    simp only [stepEv]
    by_cases hact : active st i
    · rw [if_pos hact]; exact h
    · rw [if_neg hact]; exact h
  | disconnect i =>
    simp only [stepEv]
    by_cases hact : active st i
    · rw [if_pos hact]; exact keysNodup_closeConn h
    · rw [if_neg hact]; exact h
  | errorEv i =>
    simp only [stepEv]
    by_cases hact : active st i
    · rw [if_pos hact]; exact keysNodup_closeConn h
    · rw [if_neg hact]; exact h
  | timerFire hd =>
    simp only [stepEv]
    cases hf : st.timers.find? (fun t => t.handle = hd) with
    | none => simp only [hf]; exact h
    | some t =>
      simp only [hf]
      by_cases hdl : t.deadline ≤ st.now
      · rw [if_pos hdl]
        exact keysNodup_closeConn h
      · rw [if_neg hdl]
        exact h
  | tick d => exact h

theorem reachable_timerInv {st : ServerState} (h : Reachable st) : timerInv st := by
  induction h with
  | init =>
    refine ⟨?_, ?_, ?_, ?_, ?_⟩ <;> simp [initState, sessionAt, timerInv, Session.fresh]
  | step e _ ih => exact timerInv_step e ih

theorem reachable_keysNodup {st : ServerState} (h : Reachable st) : keysNodup st := by
  induction h with
  | init => simp [initState, keysNodup]
  | step e _ ih => exact keysNodup_step e ih

/-! Characterizations of the individual packet handlers. -/

theorem reachable_runEvents (es : List Event) {st : ServerState} (h : Reachable st) :
    Reachable (runEvents es st) := by
  induction es generalizing st with
  | nil => exact h
  | cons e rest ih => exact ih (Reachable.step e h)

/-- The intermediate state of the connect handler right after
`client.id = packet.client; client.keepalive = packet.keepalive;
that.clients[client.id] = client`, before `setUpTimer()` runs. -/
def connReg (st : ServerState) (i : Nat) (cid : String) (k : Nat) : ServerState :=
  { st with
    sessions := st.sessions.set i
      { sessionAt st i with id := some cid, keepalive := some k },
    clients := setKey st.clients cid i }

theorem sessionAt_connReg {st : ServerState} {i : Nat} (cid : String) (k : Nat)
    (hlen : i < st.sessions.length) :
    sessionAt (connReg st i cid k) i
      = { sessionAt st i with id := some cid, keepalive := some k } :=
  getD_set_self _ _ _ _ hlen

theorem connect_eq {st : ServerState} {i : Nat} (cid : String) (k : Nat)
    (hact : active st i = true) :
    stepEv (.connect i cid k) st
      = { sessions := (connReg st i cid k).sessions.set i
            { sessionAt (connReg st i cid k) i with timer := some st.nextHandle },
          clients := setKey st.clients cid i,
          timers := ⟨st.nextHandle, i,
              st.now + delayMs (sessionAt (connReg st i cid k) i).keepalive⟩
            :: clearTimer st.timers (sessionAt (connReg st i cid k) i).timer,
          nextHandle := st.nextHandle + 1,
          now := st.now,
          listenerRunning := st.listenerRunning,
          log := st.log ++ [Out.connack i 0, Out.clientConnected i] } := by
  simp only [stepEv]
  rw [if_pos hact]
  rfl

theorem connect_timers {st : ServerState} {i : Nat} (cid : String) (k : Nat)
    (hact : active st i = true) :
    (stepEv (.connect i cid k) st).timers
      = ⟨st.nextHandle, i, st.now + k * 1250⟩
          :: clearTimer st.timers (sessionAt st i).timer := by
  rw [connect_eq cid k hact]
  show (⟨st.nextHandle, i, st.now + delayMs (sessionAt (connReg st i cid k) i).keepalive⟩
      :: clearTimer st.timers (sessionAt (connReg st i cid k) i).timer : List Timer) = _
  rw [sessionAt_connReg cid k (active_length hact)]
  rfl

theorem connect_clients {st : ServerState} {i : Nat} (cid : String) (k : Nat)
    (hact : active st i = true) :
    (stepEv (.connect i cid k) st).clients = setKey st.clients cid i := by
  rw [connect_eq cid k hact]

theorem connect_sessions {st : ServerState} {i : Nat} (cid : String) (k : Nat)
    (hact : active st i = true) :
    (stepEv (.connect i cid k) st).sessions
      = st.sessions.set i
          { sessionAt st i with
            id := some cid, keepalive := some k, timer := some st.nextHandle } := by
  rw [connect_eq cid k hact]
  show (st.sessions.set i { sessionAt st i with id := some cid, keepalive := some k }).set i
      { sessionAt (connReg st i cid k) i with timer := some st.nextHandle } = _
  rw [sessionAt_connReg cid k (active_length hact), List.set_set]

theorem pingreq_eq {st : ServerState} {i : Nat} (hact : active st i = true) :
    stepEv (.pingreq i) st
      = { sessions := st.sessions.set i
            { sessionAt st i with timer := some st.nextHandle },
          clients := st.clients,
          timers := ⟨st.nextHandle, i, st.now + delayMs (sessionAt st i).keepalive⟩
            :: clearTimer st.timers (sessionAt st i).timer,
          nextHandle := st.nextHandle + 1,
          now := st.now,
          listenerRunning := st.listenerRunning,
          log := st.log ++ [Out.pingresp i] } := by
  simp only [stepEv]
  rw [if_pos hact]
  rfl

theorem subscribe_eq {st : ServerState} {i : Nat} (m : Nat) (subs : List Subscription)
    (hact : active st i = true) :
    stepEv (.subscribe i m subs) st
      = { st with log := st.log ++ subs.map (fun s => Out.busSub i s.topic)
            ++ [Out.suback i m (grantedOf subs)] } := by
  simp only [stepEv]
  rw [if_pos hact]

theorem publish_eq {st : ServerState} {i : Nat} (topic payload : String)
    (hact : active st i = true) :
    stepEv (.publishP i topic payload) st
      = { st with log := st.log
            ++ [Out.busPub topic payload, Out.published topic payload i] } := by
  simp only [stepEv]
  rw [if_pos hact]

theorem unsubscribe_eq {st : ServerState} {i : Nat} (m : Nat) (ts : List String)
    (hact : active st i = true) :
    stepEv (.unsubscribe i m ts) st
      = { st with log := st.log ++ ts.map (fun t => Out.busUnsub i t)
            ++ [Out.unsuback i m] } := by
  simp only [stepEv]
  rw [if_pos hact]

theorem timerFire_eq {st : ServerState} {h : Nat} {t : Timer}
    (hf : st.timers.find? (fun u => u.handle = h) = some t)
    (hdl : t.deadline ≤ st.now) :
    stepEv (.timerFire h) st
      = closeConn { st with timers := st.timers.filter (fun u => u.handle ≠ h) }
          t.owner false := by
  simp only [stepEv, hf]
  rw [if_pos hdl]

/-! Claim C1: the subscribe acknowledgment. -/

/-- C1: for every subscribe packet with a list of `n` subscription entries and
request id `R` (`packet.messageId`), the handler appends the `n` Topic Bus
registrations followed by exactly one subscribe acknowledgment carrying `R`
and a granted-levels list of length `n` whose every element is `0`, in the
requested order; the acknowledgment comes only after all registrations in the
output order, and the handler leaves sessions, registry, and timers unchanged. -/
theorem C1_subscribe_ack (st : ServerState) (i m : Nat) (subs : List Subscription)
    (hact : active st i = true) :
    (stepEv (.subscribe i m subs) st).log
        = st.log ++ subs.map (fun s => Out.busSub i s.topic)
          ++ [Out.suback i m (grantedOf subs)]
      ∧ (grantedOf subs).length = subs.length
      ∧ (∀ g ∈ grantedOf subs, g = 0)
      ∧ (stepEv (.subscribe i m subs) st).sessions = st.sessions
      ∧ (stepEv (.subscribe i m subs) st).clients = st.clients
      ∧ (stepEv (.subscribe i m subs) st).timers = st.timers := by
  rw [subscribe_eq m subs hact]
  refine ⟨rfl, by simp [grantedOf], ?_, rfl, rfl, rfl⟩
  intro g hg
  rcases List.mem_map.mp hg with ⟨s, _, h0⟩
  exact h0.symm

/-- Concrete instance of `C1_subscribe_ack`: the spec's example
`subscribe([{a/b,0},{c/d,1}], requestId 7)` on a fresh connection. -/
theorem C1_subscribe_ack_witness :
    active (stepEv .accept initState) 0 = true
      ∧ (stepEv (.subscribe 0 7 [⟨"a/b", 0⟩, ⟨"c/d", 1⟩]) (stepEv .accept initState)).log
          = (stepEv .accept initState).log
            ++ ([⟨"a/b", 0⟩, ⟨"c/d", 1⟩] : List Subscription).map
                (fun s => Out.busSub 0 s.topic)
            ++ [Out.suback 0 7 (grantedOf [⟨"a/b", 0⟩, ⟨"c/d", 1⟩])] :=
  ⟨by decide,
    (C1_subscribe_ack (stepEv .accept initState) 0 7 [⟨"a/b", 0⟩, ⟨"c/d", 1⟩] (by decide)).1⟩

/-! Claim C2: which packets rearm the keepalive timer. -/

/-- C2 as stated is false on the code: a publish packet does not rearm the
liveness timer.  After connecting with keepalive 10 s (deadline 12500 ms) and
publishing at 12400 ms — which, were publish an activity, would move the
deadline to 24900 ms — the pending timer still has deadline 12500 ms, and the
timer fire at 12500 ms tears the session down even though a publish arrived
100 ms earlier, well inside the `K × 1.25` window. -/
theorem C2_keepalive_activity_cex :
    (runEvents [.accept, .connect 0 "c" 10, .tick 12400] initState).timers
        = [⟨0, 0, 12500⟩]
    ∧ (stepEv (.publishP 0 "t" "p")
        (runEvents [.accept, .connect 0 "c" 10, .tick 12400] initState)).timers
        = [⟨0, 0, 12500⟩]
    ∧ (stepEv (.publishP 0 "t" "p")
        (runEvents [.accept, .connect 0 "c" 10, .tick 12400] initState)).now + 12500
        = 24900
    ∧ (sessionAt (runEvents
        [.accept, .connect 0 "c" 10, .tick 12400, .publishP 0 "t" "p", .tick 100, .timerFire 0]
        initState) 0).streamEnded = true
    ∧ Out.clientDisconnected 0 ∈ (runEvents
        [.accept, .connect 0 "c" 10, .tick 12400, .publishP 0 "t" "p", .tick 100, .timerFire 0]
        initState).log := by
  decide

/-- C2 (amended): only connect and pingreq rearm the liveness timer — each
clears the stored timeout and schedules a fresh one due `keepalive × 1250` ms
from now; subscribe, publish, and unsubscribe leave the pending timers
untouched; and a due timer fires into exactly the `closeConn` teardown used
for an explicit disconnect. -/
theorem C2_keepalive_rearm (st : ServerState) (i m m' k h : Nat) (cid : String)
    (subs : List Subscription) (topic payload : String) (ts : List String) (t : Timer)
    (hact : active st i = true)
    (hf : st.timers.find? (fun u => u.handle = h) = some t)
    (hdl : t.deadline ≤ st.now) :
    (stepEv (.connect i cid k) st).timers
        = ⟨st.nextHandle, i, st.now + k * 1250⟩
            :: clearTimer st.timers (sessionAt st i).timer
    ∧ (stepEv (.pingreq i) st).timers
        = ⟨st.nextHandle, i, st.now + delayMs (sessionAt st i).keepalive⟩
            :: clearTimer st.timers (sessionAt st i).timer
    ∧ (stepEv (.subscribe i m subs) st).timers = st.timers
    ∧ (stepEv (.publishP i topic payload) st).timers = st.timers
    ∧ (stepEv (.unsubscribe i m' ts) st).timers = st.timers
    ∧ stepEv (.timerFire h) st
        = closeConn { st with timers := st.timers.filter (fun u => u.handle ≠ h) }
            t.owner false
    ∧ stepEv (.disconnect i) st = closeConn st i false := by
  refine ⟨connect_timers cid k hact, ?_, ?_, ?_, ?_, timerFire_eq hf hdl, ?_⟩
  · rw [pingreq_eq hact]
  · rw [subscribe_eq m subs hact]
  · rw [publish_eq topic payload hact]
  · rw [unsubscribe_eq m' ts hact]
  · simp only [stepEv]
    rw [if_pos hact]

/-- Concrete instance of `C2_keepalive_rearm`: a connected client with a due
timer; the publish conjunct is exhibited. -/
theorem C2_keepalive_rearm_witness :
    (active (runEvents [.accept, .connect 0 "c" 10, .tick 12500] initState) 0 = true
      ∧ (runEvents [.accept, .connect 0 "c" 10, .tick 12500] initState).timers.find?
          (fun u => u.handle = 0) = some ⟨0, 0, 12500⟩
      ∧ (12500 : Nat) ≤ (runEvents [.accept, .connect 0 "c" 10, .tick 12500] initState).now)
    ∧ (stepEv (.publishP 0 "t" "p")
          (runEvents [.accept, .connect 0 "c" 10, .tick 12500] initState)).timers
        = (runEvents [.accept, .connect 0 "c" 10, .tick 12500] initState).timers :=
  ⟨⟨by decide, by decide, by decide⟩,
    (C2_keepalive_rearm (runEvents [.accept, .connect 0 "c" 10, .tick 12500] initState)
      0 1 2 5 0 "d" [] "t" "p" [] ⟨0, 0, 12500⟩ (by decide) (by decide) (by decide)).2.2.2.1⟩

/-! Claim C5: keepalive 0. -/

/-- C5 as stated is false on the code: `keepaliveSeconds = 0` does not disable
the timeout.  The connect handler arms a timer with delay `0 * 1250 = 0` ms,
immediately due, and its firing tears the session down. -/
theorem C5_keepalive_zero_cex :
    (runEvents [.accept, .connect 0 "c" 0] initState).timers = [⟨0, 0, 0⟩]
    ∧ (sessionAt (runEvents [.accept, .connect 0 "c" 0, .timerFire 0] initState) 0).streamEnded
        = true
    ∧ Out.clientDisconnected 0
        ∈ (runEvents [.accept, .connect 0 "c" 0, .timerFire 0] initState).log := by
  decide

/-- C5 (amended): a connect with `keepaliveSeconds = 0` arms the liveness
timer with a zero delay — its deadline is the current instant — so the timer
is due at once, and firing it ends the session's stream (server-initiated
teardown) instead of the timeout being disabled. -/
theorem C5_keepalive_zero (st : ServerState) (i : Nat) (cid : String)
    (hact : active st i = true) :
    (stepEv (.connect i cid 0) st).timers
        = ⟨st.nextHandle, i, st.now⟩ :: clearTimer st.timers (sessionAt st i).timer
    ∧ (sessionAt (stepEv (.timerFire st.nextHandle) (stepEv (.connect i cid 0) st)) i).streamEnded
        = true := by
  have h1 : (stepEv (.connect i cid 0) st).timers
      = ⟨st.nextHandle, i, st.now⟩ :: clearTimer st.timers (sessionAt st i).timer := by
    have h0 := connect_timers cid 0 hact
    simpa using h0
  refine ⟨h1, ?_⟩
  have hf : (stepEv (.connect i cid 0) st).timers.find? (fun u => u.handle = st.nextHandle)
      = some ⟨st.nextHandle, i, st.now⟩ := by
    rw [h1]
    exact List.find?_cons_of_pos _ (by simp)
  have hnow : (stepEv (.connect i cid 0) st).now = st.now := by
    rw [connect_eq cid 0 hact]
  have hdl : (Timer.mk st.nextHandle i st.now).deadline ≤ (stepEv (.connect i cid 0) st).now := by
    rw [hnow]
  rw [timerFire_eq hf hdl]
  have hlen : i < (stepEv (.connect i cid 0) st).sessions.length := by
    rw [connect_sessions cid 0 hact, List.length_set]
    exact active_length hact
  rw [sessionAt_closeConn]
  split
  · rfl
  · rename_i hc
    exact absurd ⟨rfl, hlen⟩ hc

/-- Concrete instance of `C5_keepalive_zero`. -/
theorem C5_keepalive_zero_witness :
    active (stepEv .accept initState) 0 = true
    ∧ (sessionAt (stepEv (.timerFire (stepEv .accept initState).nextHandle)
          (stepEv (.connect 0 "c" 0) (stepEv .accept initState))) 0).streamEnded = true :=
  ⟨by decide, (C5_keepalive_zero (stepEv .accept initState) 0 "c" (by decide)).2⟩

/-! Claim C4: closeConn. -/

theorem clearTimer_idem (timers : List Timer) (o : Option Nat) :
    clearTimer (clearTimer timers o) o = clearTimer timers o := by
  cases o with
  | none => rfl
  | some h =>
    show (timers.filter _).filter _ = timers.filter _
    rw [List.filter_filter]
    exact List.filter_congr (fun t _ => Bool.and_self _)

theorem eraseKey_idem (m : List (String × Nat)) (k : String) :
    eraseKey (eraseKey m k) k = eraseKey m k := by
  show (m.filter _).filter _ = m.filter _
  rw [List.filter_filter]
  exact List.filter_congr (fun p _ => Bool.and_self _)

theorem closeConn_closeConn {st : ServerState} {i : Nat} {cb cb' : Bool}
    (hlen : i < st.sessions.length) :
    (closeConn (closeConn st i cb) i cb').timers = (closeConn st i cb).timers
    ∧ (closeConn (closeConn st i cb) i cb').clients = (closeConn st i cb).clients := by
  have hse : sessionAt (closeConn st i cb) i
      = { sessionAt st i with streamEnded := true, listenersAttached := false } := by
    rw [sessionAt_closeConn]
    rw [if_pos (⟨rfl, hlen⟩ : i = i ∧ i < st.sessions.length)]
  have hid : (sessionAt (closeConn st i cb) i).id = (sessionAt st i).id := by rw [hse]
  have hti : (sessionAt (closeConn st i cb) i).timer = (sessionAt st i).timer := by rw [hse]
  constructor
  · rw [closeConn_timers (closeConn st i cb) i cb', hid, hti, closeConn_timers st i cb]
    by_cases hb : truthyId (sessionAt st i).id
    · rw [if_pos hb, if_pos hb, clearTimer_idem]
    · rw [if_neg hb, if_neg hb]
  · rw [closeConn_clients (closeConn st i cb) i cb', hid, closeConn_clients st i cb]
    by_cases hb : truthyId (sessionAt st i).id
    · rw [if_pos hb, if_pos hb, eraseKey_idem]
    · rw [if_neg hb, if_neg hb]

/-- C4 (amended): for every `closeConn(session, onDone)` on an accepted
connection: a session with an assigned non-empty (truthy) id has its timer
cleared and its id's registry entry removed, and repeating the call changes
timers and registry no further; a session whose id is unassigned or the
empty string performs no registry or timer work; unconditionally the stream
is ended, all listeners are detached, `onDone` (when given) is scheduled
asynchronously exactly once, and `clientDisconnected` is emitted. -/
theorem C4_closeConn_spec (st : ServerState) (i : Nat) (cb cb' : Bool)
    (hlen : i < st.sessions.length) :
    (truthyId (sessionAt st i).id = true →
        (closeConn st i cb).timers = clearTimer st.timers (sessionAt st i).timer
        ∧ (closeConn st i cb).clients = eraseKey st.clients ((sessionAt st i).id.getD ""))
    ∧ (truthyId (sessionAt st i).id = false →
        (closeConn st i cb).timers = st.timers
        ∧ (closeConn st i cb).clients = st.clients)
    ∧ (closeConn (closeConn st i cb) i cb').timers = (closeConn st i cb).timers
    ∧ (closeConn (closeConn st i cb) i cb').clients = (closeConn st i cb).clients
    ∧ (sessionAt (closeConn st i cb) i).streamEnded = true
    ∧ (sessionAt (closeConn st i cb) i).listenersAttached = false
    ∧ (closeConn st i cb).log
        = st.log ++ (if cb then [Out.cbScheduled i] else [])
          ++ [Out.clientDisconnected i] := by
  have hse : sessionAt (closeConn st i cb) i
      = { sessionAt st i with streamEnded := true, listenersAttached := false } := by
    rw [sessionAt_closeConn]
    rw [if_pos (⟨rfl, hlen⟩ : i = i ∧ i < st.sessions.length)]
  refine ⟨?_, ?_, (closeConn_closeConn hlen).1, (closeConn_closeConn hlen).2,
    ?_, ?_, closeConn_log st i cb⟩
  · intro hb
    rw [closeConn_timers, closeConn_clients, if_pos hb, if_pos hb]
    exact ⟨rfl, rfl⟩
  · intro hb
    have hb' : ¬ truthyId (sessionAt st i).id = true := by simp [hb]
    rw [closeConn_timers, closeConn_clients, if_neg hb', if_neg hb']
    exact ⟨rfl, rfl⟩
  · rw [hse]
  · rw [hse]

/-- Concrete instance of `C4_closeConn_spec`: a connected client, `onDone`
given; the output conjunct is exhibited. -/
theorem C4_closeConn_spec_witness :
    0 < (runEvents [.accept, .connect 0 "c" 5] initState).sessions.length
    ∧ (closeConn (runEvents [.accept, .connect 0 "c" 5] initState) 0 true).log
        = (runEvents [.accept, .connect 0 "c" 5] initState).log
          ++ [Out.cbScheduled 0] ++ [Out.clientDisconnected 0] :=
  ⟨by decide,
    (C4_closeConn_spec (runEvents [.accept, .connect 0 "c" 5] initState) 0 true false
      (by decide)).2.2.2.2.2.2⟩

/-- C4 as stated is false on the code for the empty client id: after a
connect packet with client id `""` the session has an assigned id, a live
timer, and a registry entry under `""`, yet `closeConn` — whose guard
`if (client.id)` treats the empty string as falsy — clears no timer and
removes no registry entry. -/
theorem C4_closeConn_empty_id_cex :
    (sessionAt (runEvents [.accept, .connect 0 "" 5] initState) 0).id = some ""
    ∧ (runEvents [.accept, .connect 0 "" 5] initState).timers = [⟨0, 0, 6250⟩]
    ∧ lookupKey (runEvents [.accept, .connect 0 "" 5] initState).clients "" = some 0
    ∧ (closeConn (runEvents [.accept, .connect 0 "" 5] initState) 0 false).timers
        = [⟨0, 0, 6250⟩]
    ∧ (closeConn (runEvents [.accept, .connect 0 "" 5] initState) 0 false).clients
        = [("", 0)] := by
  decide

/-! Claim C6: connect reusing a registered client id. -/

theorem filter_owner_clearTimer {st : ServerState} {i j : Nat}
    (h3 : ∀ t ∈ st.timers, (sessionAt st t.owner).timer = some t.handle)
    (h5 : ∀ a b h, (sessionAt st a).timer = some h → (sessionAt st b).timer = some h → a = b)
    (hij : i ≠ j) :
    (clearTimer st.timers (sessionAt st j).timer).filter (fun t => t.owner = i)
      = st.timers.filter (fun t => t.owner = i) := by
  cases hfj : (sessionAt st j).timer with
  | none => rfl
  | some h =>
    show (st.timers.filter _).filter _ = _
    rw [List.filter_filter]
    refine List.filter_congr ?_
    intro t ht
    by_cases ho : t.owner = i
    · have hne : t.handle ≠ h := by
        intro hh
        have h3t := h3 t ht
        rw [ho] at h3t
        rw [hh] at h3t
        exact hij (h5 i j h h3t hfj)
      simp [ho, hne]
    · simp [ho]

/-- C6: when a connect packet arrives on connection `j` reusing the client
id `x` under which a different session `i` is still registered, the new
session silently overwrites the registry entry for `x`; the old session's
record is completely untouched (its stream is not ended, its timer slot
unchanged) and its pending timers stay live; no other registry key is
affected. -/
theorem C6_id_reuse (st : ServerState) (i j k : Nat) (x : String)
    (hre : Reachable st) (hact : active st j = true)
    (hlook : lookupKey st.clients x = some i) (hij : i ≠ j) :
    lookupKey (stepEv (.connect j x k) st).clients x = some j
    ∧ (∀ y, y ≠ x → lookupKey (stepEv (.connect j x k) st).clients y
        = lookupKey st.clients y)
    ∧ sessionAt (stepEv (.connect j x k) st) i = sessionAt st i
    ∧ (stepEv (.connect j x k) st).timers.filter (fun t => t.owner = i)
        = st.timers.filter (fun t => t.owner = i) := by
  obtain ⟨h1, h2, h3, h4, h5⟩ := reachable_timerInv hre
  refine ⟨?_, ?_, ?_, ?_⟩
  · rw [connect_clients x k hact]
    exact lookupKey_setKey_self _ _ _
  · intro y hy
    rw [connect_clients x k hact]
    exact lookupKey_setKey_ne _ _ hy
  · show (stepEv (.connect j x k) st).sessions.getD i Session.fresh
        = st.sessions.getD i Session.fresh
    rw [connect_sessions x k hact, getD_set_ne _ _ _ (Ne.symm hij)]
  · rw [connect_timers x k hact, List.filter_cons]
    rw [if_neg (by simp [Ne.symm hij])]
    exact filter_owner_clearTimer h3 h5 hij

/-- Concrete instance of `C6_id_reuse`: connection 0 registered as "x",
then connection 1 connects as "x". -/
theorem C6_id_reuse_witness :
    (active (runEvents [.accept, .connect 0 "x" 5, .accept] initState) 1 = true
      ∧ lookupKey (runEvents [.accept, .connect 0 "x" 5, .accept] initState).clients "x"
          = some 0)
    ∧ lookupKey (stepEv (.connect 1 "x" 7)
        (runEvents [.accept, .connect 0 "x" 5, .accept] initState)).clients "x" = some 1
    ∧ sessionAt (stepEv (.connect 1 "x" 7)
          (runEvents [.accept, .connect 0 "x" 5, .accept] initState)) 0
        = sessionAt (runEvents [.accept, .connect 0 "x" 5, .accept] initState) 0 :=
  ⟨⟨by decide, by decide⟩,
    (C6_id_reuse (runEvents [.accept, .connect 0 "x" 5, .accept] initState) 0 1 7 "x"
      (reachable_runEvents _ Reachable.init) (by decide) (by decide) (by decide)).1,
    (C6_id_reuse (runEvents [.accept, .connect 0 "x" 5, .accept] initState) 0 1 7 "x"
      (reachable_runEvents _ Reachable.init) (by decide) (by decide) (by decide)).2.2.1⟩

/-! Claim C7: registry key uniqueness. -/

theorem closeTasks_keysNodup (ks : List String) (st : ServerState) (acc : List CAct)
    (h : (st.clients.map Prod.fst).Nodup) :
    ∀ st' acts, closeTasks ks st acc = .ok (st', acts)
      → (st'.clients.map Prod.fst).Nodup := by
  induction ks generalizing st acc with
  | nil =>
    intro st' acts h'
    simp only [closeTasks, Except.ok.injEq, Prod.mk.injEq] at h'
    obtain ⟨rfl, -⟩ := h'
    exact h
  | cons k rest ih =>
    intro st' acts h'
    simp only [closeTasks] at h'
    cases hl : lookupKey st.clients k with
    | none =>
      rw [hl] at h'
      exact Except.noConfusion h'
    | some v =>
      rw [hl] at h'
      exact ih (closeConn st v true) (acc ++ [CAct.teardown k])
        (keysNodup_closeConn h) st' acts h'

/-- C7: in every reachable broker state the registry holds at most one entry
per client id (its key list is duplicate-free) — every packet event, timer
expiry, and `closeConn` preserves this — and any successfully completing
`close()` leaves the registry keys duplicate-free as well. -/
theorem C7_registry_unique (st : ServerState) (hre : Reachable st) :
    (st.clients.map Prod.fst).Nodup
    ∧ (∀ cb st' acts, closeFn st cb = .ok (st', acts)
        → (st'.clients.map Prod.fst).Nodup) := by
  have hnd : (st.clients.map Prod.fst).Nodup := reachable_keysNodup hre
  refine ⟨hnd, ?_⟩
  intro cb st' acts h'
  unfold closeFn at h'
  split at h'
  · exact Except.noConfusion h'
  · rename_i st1 acts1 hT
    have hnd1 : (st1.clients.map Prod.fst).Nodup :=
      closeTasks_keysNodup _ _ _ hnd _ _ hT
    unfold closeFinish at h'
    split at h'
    · simp only [Except.ok.injEq, Prod.mk.injEq] at h'
      obtain ⟨h1', -⟩ := h'
      subst h1'
      exact hnd1
    · split at h'
      · simp only [Except.ok.injEq, Prod.mk.injEq] at h'
        obtain ⟨rfl, -⟩ := h'
        exact hnd1
      · exact Except.noConfusion h'

/-- Concrete instance of `C7_registry_unique` at a reachable state with one
registered client. -/
theorem C7_registry_unique_witness :
    ((runEvents [.accept, .connect 0 "a" 1] initState).clients.map Prod.fst).Nodup :=
  (C7_registry_unique (runEvents [.accept, .connect 0 "a" 1] initState)
    (reachable_runEvents _ Reachable.init)).1

/-! Claim C8: at most one live timer per session. -/

theorem length_le_one_of_handles {l : List Timer}
    (hnd : (l.map Timer.handle).Nodup)
    (hconst : ∀ t ∈ l, ∀ u ∈ l, t.handle = u.handle) : l.length ≤ 1 := by
  cases l with
  | nil => simp
  | cons t rest =>
    cases rest with
    | nil => simp
    | cons u rest' =>
      exfalso
      rw [List.map_cons, List.map_cons, List.nodup_cons] at hnd
      refine hnd.1 ?_
      rw [hconst t (by simp) u (by simp)]
      simp

/-- C8: in every reachable broker state, every session owns at most one
pending liveness timer; moreover a rearm (here: pingreq) first clears the
session's stored timeout and only then schedules the single fresh one. -/
theorem C8_timer_unique (st : ServerState) (hre : Reachable st) (i : Nat) :
    (st.timers.filter (fun t => t.owner = i)).length ≤ 1
    ∧ (active st i = true →
        (stepEv (.pingreq i) st).timers
          = ⟨st.nextHandle, i, st.now + delayMs (sessionAt st i).keepalive⟩
              :: clearTimer st.timers (sessionAt st i).timer) := by
  obtain ⟨h1, h2, h3, h4, h5⟩ := reachable_timerInv hre
  constructor
  · refine length_le_one_of_handles
      (((List.filter_sublist _).map Timer.handle).nodup h2) ?_
    intro t ht u hu
    obtain ⟨htm, hto⟩ := List.mem_filter.mp ht
    obtain ⟨hum, huo⟩ := List.mem_filter.mp hu
    have h3t := h3 t htm
    have h3u := h3 u hum
    rw [of_decide_eq_true hto] at h3t
    rw [of_decide_eq_true huo] at h3u
    rw [h3t] at h3u
    exact Option.some.inj h3u
  · intro hact
    rw [pingreq_eq hact]

/-- Concrete instance of `C8_timer_unique` after a connect armed a timer. -/
theorem C8_timer_unique_witness :
    ((runEvents [.accept, .connect 0 "a" 1] initState).timers.filter
        (fun t => t.owner = 0)).length ≤ 1 :=
  (C8_timer_unique (runEvents [.accept, .connect 0 "a" 1] initState)
    (reachable_runEvents _ Reachable.init) 0).1

/-! Claim C9: handlers are installed and ungated before connect. -/

theorem sessionAt_promote (st : ServerState) (i : Nat) (cid : String) (j : Nat) :
    sessionAt (promote st i cid) j
      = if i = j ∧ i < st.sessions.length then { sessionAt st i with id := some cid }
        else sessionAt st j := by
  show (st.sessions.set i { sessionAt st i with id := some cid }).getD j Session.fresh = _
  rw [getD_set]
  rfl

theorem active_promote (st : ServerState) (i : Nat) (cid : String) (j : Nat) :
    active (promote st i cid) j = active st j := by
  unfold active
  have hlen : (promote st i cid).sessions.length = st.sessions.length :=
    List.length_set _ _ _
  rw [hlen, sessionAt_promote]
  split
  · rename_i hc
    rw [← hc.1]
  · rfl

theorem setUpTimer_promote (st : ServerState) (i : Nat) (cid : String)
    (hlen : i < st.sessions.length) :
    setUpTimer (promote st i cid) i = promote (setUpTimer st i) i cid := by
  have hA : sessionAt (promote st i cid) i = { sessionAt st i with id := some cid } :=
    getD_set_self _ _ _ _ hlen
  have hB : sessionAt (setUpTimer st i) i
      = { sessionAt st i with timer := some st.nextHandle } :=
    sessionAt_setUpTimer_self hlen
  have hsess : (setUpTimer (promote st i cid) i).sessions
      = (promote (setUpTimer st i) i cid).sessions := by
    show ((promote st i cid).sessions.set i
        { sessionAt (promote st i cid) i with timer := some st.nextHandle })
      = ((setUpTimer st i).sessions.set i
        { sessionAt (setUpTimer st i) i with id := some cid })
    rw [hA, hB]
    show (st.sessions.set i { sessionAt st i with id := some cid }).set i _
        = (st.sessions.set i { sessionAt st i with timer := some st.nextHandle }).set i _
    rw [List.set_set, List.set_set]
  have htim : (setUpTimer (promote st i cid) i).timers
      = (promote (setUpTimer st i) i cid).timers := by
    show (⟨(promote st i cid).nextHandle, i, (promote st i cid).now
          + delayMs (sessionAt (promote st i cid) i).keepalive⟩
        :: clearTimer (promote st i cid).timers (sessionAt (promote st i cid) i).timer)
      = (setUpTimer st i).timers
    rw [hA]
    rfl
  exact ServerState.ext hsess rfl htim rfl rfl rfl rfl

/-- C9: the subscribe, publish, unsubscribe, and pingreq handlers are all
installed at connection acceptance and contain no state-machine gating:
each one commutes with `promote` (the id-assignment/registry-insertion part
of the connect transition), so a client still pending — no id assigned, not
in the registry — has these packets processed exactly as the corresponding
connected client would. -/
theorem C9_pending_uniform (st : ServerState) (i m m' : Nat) (cid : String)
    (subs : List Subscription) (topic payload : String) (ts : List String) :
    stepEv (.subscribe i m subs) (promote st i cid)
        = promote (stepEv (.subscribe i m subs) st) i cid
    ∧ stepEv (.publishP i topic payload) (promote st i cid)
        = promote (stepEv (.publishP i topic payload) st) i cid
    ∧ stepEv (.unsubscribe i m' ts) (promote st i cid)
        = promote (stepEv (.unsubscribe i m' ts) st) i cid
    ∧ stepEv (.pingreq i) (promote st i cid)
        = promote (stepEv (.pingreq i) st) i cid := by
  have hap : active (promote st i cid) i = active st i := active_promote st i cid i
  refine ⟨?_, ?_, ?_, ?_⟩
  · by_cases hact : active st i
    · rw [subscribe_eq m subs (by rw [hap]; exact hact), subscribe_eq m subs hact]
      rfl
    · simp only [stepEv]
      rw [if_neg (by rw [hap]; exact hact), if_neg hact]
  · by_cases hact : active st i
    · rw [publish_eq topic payload (by rw [hap]; exact hact), publish_eq topic payload hact]
      rfl
    · simp only [stepEv]
      rw [if_neg (by rw [hap]; exact hact), if_neg hact]
  · by_cases hact : active st i
    · rw [unsubscribe_eq m' ts (by rw [hap]; exact hact), unsubscribe_eq m' ts hact]
      rfl
    · simp only [stepEv]
      rw [if_neg (by rw [hap]; exact hact), if_neg hact]
  · by_cases hact : active st i
    · have hact' : active (promote st i cid) i = true := by rw [hap]; exact hact
      simp only [stepEv]
      rw [if_pos hact', if_pos hact]
      rw [setUpTimer_promote st i cid (active_length hact)]
      rfl
    · simp only [stepEv]
      rw [if_neg (by rw [hap]; exact hact), if_neg hact]

/-! Claims C3 and C10: close(). -/

theorem keys_lookup_total (st : ServerState) :
    ∀ k ∈ st.clients.map Prod.fst, ∃ v, lookupKey st.clients k = some v := by
  intro k hk
  rcases List.mem_map.mp hk with ⟨p, hp, rfl⟩
  exact lookupKey_isSome_of_mem hp

theorem closeTasks_run (ks : List String) (st : ServerState) (acc : List CAct)
    (hnd : ks.Nodup)
    (hin : ∀ k ∈ ks, ∃ v, lookupKey st.clients k = some v)
    (hcons : ∀ p ∈ st.clients, truthyId (sessionAt st p.2).id = true
        → (sessionAt st p.2).id = some p.1) :
    ∃ st', closeTasks ks st acc = .ok (st', acc ++ ks.map CAct.teardown)
      ∧ st'.listenerRunning = st.listenerRunning := by
  induction ks generalizing st acc with
  | nil => exact ⟨st, by simp [closeTasks], rfl⟩
  | cons k rest ih =>
    obtain ⟨v, hv⟩ := hin k (List.mem_cons_self k rest)
    have hmem : (k, v) ∈ st.clients := lookupKey_mem hv
    have hnd' : rest.Nodup := (List.nodup_cons.mp hnd).2
    have hknr : k ∉ rest := (List.nodup_cons.mp hnd).1
    have hin' : ∀ k' ∈ rest, ∃ v', lookupKey (closeConn st v true).clients k' = some v' := by
      intro k' hk'
      have hne : k' ≠ k := fun hh => hknr (hh ▸ hk')
      rw [closeConn_clients]
      by_cases hb : truthyId (sessionAt st v).id
      · rw [if_pos hb]
        have hid : (sessionAt st v).id = some k := hcons (k, v) hmem hb
        rw [hid]
        show ∃ v', lookupKey (eraseKey st.clients k) k' = some v'
        rw [lookupKey_eraseKey_ne _ hne]
        exact hin k' (List.mem_cons_of_mem _ hk')
      · rw [if_neg hb]
        exact hin k' (List.mem_cons_of_mem _ hk')
    have hcons' : ∀ p ∈ (closeConn st v true).clients,
        truthyId (sessionAt (closeConn st v true) p.2).id = true
        → (sessionAt (closeConn st v true) p.2).id = some p.1 := by
      intro p hp
      have hpm : p ∈ st.clients := by
        revert hp
        rw [closeConn_clients]
        by_cases hb : truthyId (sessionAt st v).id
        · rw [if_pos hb]
          exact mem_of_mem_eraseKey
        · rw [if_neg hb]
          exact id
      rw [sessionAt_closeConn]
      split
      · rename_i hc
        show truthyId (sessionAt st v).id = true → (sessionAt st v).id = some p.1
        rw [hc.1]
        exact hcons p hpm
      · exact hcons p hpm
    obtain ⟨st', hok, hrun⟩ :=
      ih (closeConn st v true) (acc ++ [CAct.teardown k]) hnd' hin' hcons'
    refine ⟨st', ?_, ?_⟩
    · show closeTasks (k :: rest) st acc = _
      simp only [closeTasks, hv]
      rw [hok]
      simp
    · rw [hrun, closeConn_listenerRunning]

/-- C3 (amended): provided every registered session with a truthy id is
registered under its own current id — true unless some connection sent a
second connect packet with a different client id — `close(onDone)` tears
down every registered session in registry order, then attempts the listener
stop (whether or not the listener still runs, a thrown stop error being
caught), and only after all of that invokes `onDone`, exactly once; with
zero registered sessions `onDone` is still invoked exactly once. -/
theorem C3_close_callback (st : ServerState)
    (hnd : (st.clients.map Prod.fst).Nodup)
    (hcons : ∀ p ∈ st.clients, truthyId (sessionAt st p.2).id = true
        → (sessionAt st p.2).id = some p.1) :
    ∃ st', closeFn st true
        = .ok (st', (st.clients.map Prod.fst).map CAct.teardown
            ++ [CAct.stopAttempt, CAct.onDoneInvoked])
      ∧ ((st.clients.map Prod.fst).map CAct.teardown
            ++ [CAct.stopAttempt, CAct.onDoneInvoked]).count CAct.onDoneInvoked = 1 := by
  have hcount : ((st.clients.map Prod.fst).map CAct.teardown
      ++ [CAct.stopAttempt, CAct.onDoneInvoked]).count CAct.onDoneInvoked = 1 := by
    rw [List.count_append]
    have h0 : ((st.clients.map Prod.fst).map CAct.teardown).count CAct.onDoneInvoked = 0 := by
      rw [List.count_eq_zero]
      intro hmm
      rcases List.mem_map.mp hmm with ⟨k, -, hk⟩
      exact CAct.noConfusion hk
    rw [h0]
    decide
  obtain ⟨st1, hok, hrun⟩ := closeTasks_run (st.clients.map Prod.fst) st []
    hnd (keys_lookup_total st) hcons
  by_cases hrun1 : st1.listenerRunning
  · refine ⟨{ st1 with listenerRunning := false }, ?_, hcount⟩
    unfold closeFn
    rw [hok]
    show closeFinish st1 ([] ++ (st.clients.map Prod.fst).map CAct.teardown) true = _
    unfold closeFinish
    rw [if_pos hrun1]
    simp
  · refine ⟨st1, ?_, hcount⟩
    unfold closeFn
    rw [hok]
    show closeFinish st1 ([] ++ (st.clients.map Prod.fst).map CAct.teardown) true = _
    unfold closeFinish
    rw [if_neg hrun1, if_pos rfl]
    simp

/-- Concrete instance of `C3_close_callback`: close with zero registered
sessions still invokes the callback exactly once, after the stop attempt. -/
theorem C3_close_callback_witness :
    (initState.clients.map Prod.fst).Nodup
    ∧ ∃ st', closeFn initState true
        = .ok (st', (initState.clients.map Prod.fst).map CAct.teardown
            ++ [CAct.stopAttempt, CAct.onDoneInvoked])
      ∧ ((initState.clients.map Prod.fst).map CAct.teardown
            ++ [CAct.stopAttempt, CAct.onDoneInvoked]).count CAct.onDoneInvoked = 1 :=
  ⟨by decide, C3_close_callback initState (by decide) (by decide)⟩

/-- C3 as stated is false on the code: a connection that sends a second
connect packet under a different client id leaves the registry with two
keys ("a" and "b") referencing the same client, whose current id is "b".
During `close`, the task for key "a" finds the client and its teardown
deletes key "b" (the client's current id); the task for key "b" then reads
`this.clients["b"]` as `undefined`, and `closeConn(undefined, cb)` throws a
`TypeError` reading `client.id`, so `onDone` is never invoked. -/
theorem C3_close_callback_cex :
    (runEvents [.accept, .connect 0 "a" 1, .connect 0 "b" 1] initState).clients
        = [("a", 0), ("b", 0)]
    ∧ (sessionAt (runEvents [.accept, .connect 0 "a" 1, .connect 0 "b" 1] initState) 0).id
        = some "b"
    ∧ closeFn (runEvents [.accept, .connect 0 "a" 1, .connect 0 "b" 1] initState) true
        = .error JsErr.typeError := by
  refine ⟨by decide, by decide, ?_⟩
  rfl

/-- C10: if `close` is invoked with no callback argument and the listener is
already stopped, every teardown task still runs, the listener stop attempt
throws, the catch branch invokes the undefined callback, and `close`
evaluates to a `TypeError` instead of completing silently. -/
theorem C10_close_typeerror (st : ServerState)
    (hnd : (st.clients.map Prod.fst).Nodup)
    (hcons : ∀ p ∈ st.clients, truthyId (sessionAt st p.2).id = true
        → (sessionAt st p.2).id = some p.1)
    (hstop : st.listenerRunning = false) :
    closeFn st false = .error JsErr.typeError := by
  obtain ⟨st1, hok, hrun⟩ := closeTasks_run (st.clients.map Prod.fst) st []
    hnd (keys_lookup_total st) hcons
  unfold closeFn
  rw [hok]
  show closeFinish st1 ([] ++ (st.clients.map Prod.fst).map CAct.teardown) false
      = .error JsErr.typeError
  unfold closeFinish
  rw [hrun, hstop]
  rw [if_neg (by simp), if_neg (by simp)]

/-- Concrete instance of `C10_close_typeerror`: one registered client, the
listener already stopped, no callback given. -/
theorem C10_close_typeerror_witness :
    ({ runEvents [.accept, .connect 0 "c" 5] initState with listenerRunning := false }
        : ServerState).listenerRunning = false
    ∧ closeFn { runEvents [.accept, .connect 0 "c" 5] initState with
        listenerRunning := false } false = .error JsErr.typeError :=
  ⟨by decide,
    C10_close_typeerror
      { runEvents [.accept, .connect 0 "c" 5] initState with listenerRunning := false }
      (by decide) (by decide) (by decide)⟩

end Mosca
